import Mathlib

/-!
# Verification of `TimedEventQueue` (src/TimedEventQueue.hpp)

Shallow embedding of the C++ class `TimedEventQueue<T>`.

* `TIMESTAMP` (a `std::chrono::time_point`, i.e. an ordered tick count) is
  modelled as `Nat`; the value type `T` (ordered, default-constructible,
  here `int` as in the demo) is modelled as `Nat` with `T() = 0`.
* Each `std::map` member (`_ts2Val`, `_val2Ts`) is modelled as an
  association list sorted strictly by key (`SMap`), which is the
  observable state of a `std::map`: `emplace` inserts only when the key
  is absent, `erase` removes the node with the given key, a node-handle
  `insert` (used by `updateValue`/`updateTimestamp` after `extract` and
  re-keying) likewise fails when the key is present.
* Each mutating member function is a function `... → TEQ → TEQ × Bool`;
  the `Bool` records whether the call executed `_cv.notify_one()`.
* The worker thread body `run` is modelled by its drain loop
  (`drainAux`): the `while(_ts2Val.begin()->first <= current_time)` loop
  that fires and erases due events.
-/

namespace SMap

/-- Keys of an association list. -/
def keys (l : List (Nat × Nat)) : List Nat := l.map Prod.fst

/-- `std::map::find` / lookup by key (first occurrence). -/
def lookup (k : Nat) : List (Nat × Nat) → Option Nat
  | [] => none
  | (a, b) :: t => if k = a then some b else lookup k t

/-- Insertion into a key-sorted list, keeping it sorted. -/
def insertSorted (k v : Nat) : List (Nat × Nat) → List (Nat × Nat)
  | [] => [(k, v)]
  | (a, b) :: t => if k < a then (k, v) :: (a, b) :: t else (a, b) :: insertSorted k v t

/-- `std::map::emplace`, and also node-handle `insert`: inserts `(k, v)`
only when no element with key `k` exists; otherwise the map is unchanged
(the colliding node/argument is dropped). -/
def emplace (k v : Nat) (l : List (Nat × Nat)) : List (Nat × Nat) :=
  match lookup k l with
  | some _ => l
  | none => insertSorted k v l

/-- `std::map::erase` by key: removes the node with key `k`, if any. -/
def erase (k : Nat) : List (Nat × Nat) → List (Nat × Nat)
  | [] => []
  | (a, b) :: t => if k = a then t else (a, b) :: erase k t

/-- Assignment through an iterator, `itr->second = v`: replaces the
mapped value of the node with key `k`, if present. -/
def assign (k v : Nat) : List (Nat × Nat) → List (Nat × Nat)
  | [] => []
  | (a, b) :: t => if k = a then (a, v) :: t else (a, b) :: assign k v t

/-- The representation invariant of a `std::map`: entries strictly
sorted by key. -/
def keysSorted (l : List (Nat × Nat)) : Prop :=
  l.Pairwise (fun p q => p.1 < q.1)

instance (l : List (Nat × Nat)) : Decidable (keysSorted l) := by
  unfold keysSorted; infer_instance

end SMap

/-- The event store of `TimedEventQueue<T>`: the two map members.
(`_mutex` and `_cv` carry no state relevant to the store; the notify
side effect is returned by each operation.) -/
structure TEQ where
  ts2Val : List (Nat × Nat)  -- `_ts2Val : std::map<TIMESTAMP, T>`
  val2Ts : List (Nat × Nat)  -- `_val2Ts : std::map<T, TIMESTAMP>`
  deriving Repr, DecidableEq

namespace TEQ

/-- `addEvent(timestamp, value)`: emplace into both maps, then
`_cv.notify_one()` (hence the `true`). -/
def addEvent (ts v : Nat) (s : TEQ) : TEQ × Bool :=
  ({ ts2Val := SMap.emplace ts v s.ts2Val,
     val2Ts := SMap.emplace v ts s.val2Ts }, true)

/-- `removeEvent(const T& value)`: if `value` is in `_val2Ts`, erase the
mapped timestamp from `_ts2Val` and the node from `_val2Ts`. The source
contains no `_cv.notify_one()` call in this overload (hence `false`). -/
def removeEventByValue (v : Nat) (s : TEQ) : TEQ × Bool :=
  match SMap.lookup v s.val2Ts with
  | some ts =>
      ({ ts2Val := SMap.erase ts s.ts2Val,
         val2Ts := SMap.erase v s.val2Ts }, false)
  | none => (s, false)

/-- `removeEvent(const TIMESTAMP& timestamp)`: if `timestamp` is in
`_ts2Val`, erase the mapped value from `_val2Ts` and the node from
`_ts2Val`. The source contains no `_cv.notify_one()` call in this
overload (hence `false`). -/
def removeEventByTimestamp (ts : Nat) (s : TEQ) : TEQ × Bool :=
  match SMap.lookup ts s.ts2Val with
  | some v =>
      ({ ts2Val := SMap.erase ts s.ts2Val,
         val2Ts := SMap.erase v s.val2Ts }, false)
  | none => (s, false)

/-- `updateValue(timestamp, value)`: if `timestamp` is found in
`_ts2Val` with old value `oldV`, extract the node keyed `oldV` from
`_val2Ts`, re-key it to `value`, re-insert it (a node-handle insert,
which fails and drops the node when the key is already present), and
assign `itr->second = value` in `_ts2Val`. Then `_cv.notify_one()`
unconditionally. When `oldV` is absent from `_val2Ts` the extracted
node handle is empty (re-keying it would be UB in C++; inserting an
empty handle is a no-op), modelled as leaving `_val2Ts` unchanged. -/
def updateValue (ts v : Nat) (s : TEQ) : TEQ × Bool :=
  match SMap.lookup ts s.ts2Val with
  | some oldV =>
      let v2t' :=
        match SMap.lookup oldV s.val2Ts with
        | some oldTs => SMap.emplace v oldTs (SMap.erase oldV s.val2Ts)
        | none => s.val2Ts
      ({ ts2Val := SMap.assign ts v s.ts2Val, val2Ts := v2t' }, true)
  | none => (s, true)

/-- `updateTimestamp(timestamp, value)`: if `value` is found in
`_val2Ts` with old timestamp `oldTs`, extract the node keyed `oldTs`
from `_ts2Val`, re-key it to `timestamp`, re-insert it (failing and
dropping the node when the key is already present), and assign
`itr->second = timestamp` in `_val2Ts`. Then `_cv.notify_one()`
unconditionally. -/
def updateTimestamp (ts v : Nat) (s : TEQ) : TEQ × Bool :=
  match SMap.lookup v s.val2Ts with
  | some oldTs =>
      let t2v' :=
        match SMap.lookup oldTs s.ts2Val with
        | some w => SMap.emplace ts w (SMap.erase oldTs s.ts2Val)
        | none => s.ts2Val
      ({ ts2Val := t2v', val2Ts := SMap.assign v ts s.val2Ts }, true)
  | none => (s, true)

/-- `CENTENNIAL = TIME::now() + std::chrono::hours(100 * 365 * 24)`,
with ticks taken in hours (the tick unit only fixes a scale). -/
def centennial (now0 : Nat) : Nat := now0 + 100 * 365 * 24

/-- The constructor body before the thread is started:
`addEvent(CENTENNIAL, T())` on empty maps, with `T() = 0`. -/
def initState (now0 : Nat) : TEQ :=
  (addEvent (centennial now0) 0 { ts2Val := [], val2Ts := [] }).1

/-- The drain loop of `run` (source lines 84–89): while the earliest
timestamp in `_ts2Val` is `<= current_time`, invoke
`onTimestampExpire(begin()->first, begin()->second)`, then
`_val2Ts.erase(begin()->second)` and `_ts2Val.erase(begin())`.
Returns the list of (timestamp, value) pairs passed to the callback, in
invocation order, and the two maps after the loop. On an empty
`_ts2Val` the C++ dereferences `begin()` on `end()` (UB); the sentinel
is meant to prevent that state, and the model stops there. -/
def drainAux (now : Nat) : List (Nat × Nat) → List (Nat × Nat) →
    List (Nat × Nat) × List (Nat × Nat) × List (Nat × Nat)
  | [], v2t => ([], [], v2t)
  | (ts, v) :: rest, v2t =>
    if ts ≤ now then
      let r := drainAux now rest (SMap.erase v v2t)
      ((ts, v) :: r.1, r.2)
    else ([], (ts, v) :: rest, v2t)

/-- The same drain loop, instrumented: for each callback invocation it
records the pair passed to `onTimestampExpire` together with the
contents of `_ts2Val` and `_val2Ts` at the moment `std::invoke` runs —
which, per the source order (invoke on lines 86, erase on 87–88), is
before the two erases of that iteration. -/
def drainTrace (now : Nat) : List (Nat × Nat) → List (Nat × Nat) →
    List ((Nat × Nat) × List (Nat × Nat) × List (Nat × Nat))
  | [], _ => []
  | (ts, v) :: rest, v2t =>
    if ts ≤ now then
      ((ts, v), (ts, v) :: rest, v2t) :: drainTrace now rest (SMap.erase v v2t)
    else []

end TEQ

/-- One public mutation call on the store. -/
inductive Op where
  | add (ts v : Nat)
  | removeV (v : Nat)
  | removeT (ts : Nat)
  | updV (ts v : Nat)
  | updT (ts v : Nat)
  deriving Repr, DecidableEq

/-- The store after one call (discarding the notify flag). -/
def applyOp (o : Op) (s : TEQ) : TEQ :=
  match o with
  | .add ts v => (TEQ.addEvent ts v s).1
  | .removeV v => (TEQ.removeEventByValue v s).1
  | .removeT ts => (TEQ.removeEventByTimestamp ts s).1
  | .updV ts v => (TEQ.updateValue ts v s).1
  | .updT ts v => (TEQ.updateTimestamp ts v s).1

/-- The store after a sequence of calls. -/
def applyOps (l : List Op) (s : TEQ) : TEQ := l.foldl (fun s o => applyOp o s) s

/-- Whether the call's notify flag: did the call run `_cv.notify_one()`? -/
def opNotifies (o : Op) (s : TEQ) : Bool :=
  match o with
  | .add ts v => (TEQ.addEvent ts v s).2
  | .removeV v => (TEQ.removeEventByValue v s).2
  | .removeT ts => (TEQ.removeEventByTimestamp ts s).2
  | .updV ts v => (TEQ.updateValue ts v s).2
  | .updT ts v => (TEQ.updateTimestamp ts v s).2

/-- "All submitted timestamps pairwise distinct, all submitted values
pairwise distinct", read at the point of each call: the coordinate a
call would insert is not already a key of the corresponding index.
(Remove calls insert nothing; the looked-up coordinate of an update may
of course match an existing event.) -/
def distinctOK (o : Op) (s : TEQ) : Prop :=
  match o with
  | .add ts v => SMap.lookup ts s.ts2Val = none ∧ SMap.lookup v s.val2Ts = none
  | .removeV _ => True
  | .removeT _ => True
  | .updV _ v => SMap.lookup v s.val2Ts = none
  | .updT ts _ => SMap.lookup ts s.ts2Val = none

instance (o : Op) (s : TEQ) : Decidable (distinctOK o s) := by
  unfold distinctOK; cases o <;> infer_instance

/-- `distinctOK` holding at every step of a call sequence. -/
def allOK : List Op → TEQ → Prop
  | [], _ => True
  | o :: l, s => distinctOK o s ∧ allOK l (applyOp o s)

instance instAllOKDec : (l : List Op) → (s : TEQ) → Decidable (allOK l s)
  | [], _ => .isTrue trivial
  | o :: l, s => by
      unfold allOK
      haveI := instAllOKDec l (applyOp o s)
      infer_instance

/-- Thread-lifecycle state: the store plus `_exit` and whether
`_thread` is joinable (it stops being joinable once joined). -/
structure SysState where
  store : TEQ
  exitFlag : Bool
  joinable : Bool
  deriving Repr, DecidableEq

/-- `stop()`: if `_thread.joinable()`, set `_exit`, notify, and join
(after which the thread is no longer joinable); otherwise do nothing. -/
def SysState.stop (s : SysState) : SysState :=
  if s.joinable then { s with exitFlag := true, joinable := false } else s

namespace TEQ

/-- Representation well-formedness: both `std::map` members are
strictly sorted by key (which every `std::map` guarantees). -/
def WF (s : TEQ) : Prop :=
  SMap.keysSorted s.ts2Val ∧ SMap.keysSorted s.val2Ts

/-- The bijection invariant: the two indices describe exactly the same
set of (timestamp, value) pairs. -/
def mirrored (s : TEQ) : Prop :=
  (∀ p ∈ s.ts2Val, (p.2, p.1) ∈ s.val2Ts) ∧
  (∀ q ∈ s.val2Ts, (q.2, q.1) ∈ s.ts2Val)

/-- The full store invariant. -/
def Inv (s : TEQ) : Prop := WF s ∧ mirrored s

instance (s : TEQ) : Decidable (WF s) := by
  unfold WF; infer_instance

instance (s : TEQ) : Decidable (mirrored s) := by
  unfold mirrored; infer_instance

instance (s : TEQ) : Decidable (Inv s) := by
  unfold Inv; infer_instance

/-- The sentinel invariant: the store invariant plus presence of the
sentinel pair `(CENTENNIAL, T())` in the timestamp index. -/
def SInv (S : Nat) (s : TEQ) : Prop := Inv s ∧ (S, 0) ∈ s.ts2Val

instance (S : Nat) (s : TEQ) : Decidable (SInv S s) := by
  unfold SInv; infer_instance

/-- A batch of `addEvent` calls, applied left to right. -/
def addAll (evs : List (Nat × Nat)) (s : TEQ) : TEQ :=
  evs.foldl (fun s e => (addEvent e.1 e.2 s).1) s

/-- The events of a batch have pairwise-distinct timestamps and
pairwise-distinct values, none colliding with the store. -/
def freshEvents (evs : List (Nat × Nat)) (s : TEQ) : Prop :=
  (evs.map Prod.fst).Nodup ∧ (evs.map Prod.snd).Nodup ∧
  ∀ e ∈ evs, e.1 ∉ SMap.keys s.ts2Val ∧ e.2 ∉ SMap.keys s.val2Ts

instance (evs : List (Nat × Nat)) (s : TEQ) : Decidable (freshEvents evs s) := by
  unfold freshEvents; infer_instance

end TEQ

/-- A store mutation or a drain pass of the worker loop (the drain pass
carries the `current_time` read by `run`). -/
inductive ExtOp where
  | api (o : Op)
  | drainStep (now : Nat)
  deriving Repr, DecidableEq

/-- The store after an extended step. -/
def applyExtOp (o : ExtOp) (s : TEQ) : TEQ :=
  match o with
  | .api o => applyOp o s
  | .drainStep now =>
      let r := TEQ.drainAux now s.ts2Val s.val2Ts
      { ts2Val := r.2.1, val2Ts := r.2.2 }

/-- The store after a sequence of extended steps. -/
def applyExtOps (l : List ExtOp) (s : TEQ) : TEQ :=
  l.foldl (fun s o => applyExtOp o s) s

/-- A step that keeps away from the sentinel `(S, 0)`: it obeys the
distinctness discipline, never keys a removal or update on the
sentinel's value `T() = 0` or timestamp `S`, and a drain pass runs at a
time before the sentinel is due. -/
def avoidsSentinel (S : Nat) (o : ExtOp) (s : TEQ) : Prop :=
  match o with
  | .api (.add ts v) => distinctOK (.add ts v) s
  | .api (.removeV v) => v ≠ 0
  | .api (.removeT ts) => ts ≠ S
  | .api (.updV ts v) => ts ≠ S ∧ distinctOK (.updV ts v) s
  | .api (.updT ts v) => v ≠ 0 ∧ distinctOK (.updT ts v) s
  | .drainStep now => now < S

instance (S : Nat) (o : ExtOp) (s : TEQ) : Decidable (avoidsSentinel S o s) :=
  match o with
  | .api (.add ts v) => inferInstanceAs (Decidable (distinctOK (.add ts v) s))
  | .api (.removeV v) => inferInstanceAs (Decidable (v ≠ 0))
  | .api (.removeT ts) => inferInstanceAs (Decidable (ts ≠ S))
  | .api (.updV ts v) =>
      inferInstanceAs (Decidable (ts ≠ S ∧ distinctOK (.updV ts v) s))
  | .api (.updT ts v) =>
      inferInstanceAs (Decidable (v ≠ 0 ∧ distinctOK (.updT ts v) s))
  | .drainStep now => inferInstanceAs (Decidable (now < S))

/-- `avoidsSentinel` holding at every step of a sequence. -/
def allAvoid (S : Nat) : List ExtOp → TEQ → Prop
  | [], _ => True
  | o :: l, s => avoidsSentinel S o s ∧ allAvoid S l (applyExtOp o s)

instance instAllAvoidDec (S : Nat) :
    (l : List ExtOp) → (s : TEQ) → Decidable (allAvoid S l s)
  | [], _ => .isTrue trivial
  | o :: l, s => by
      unfold allAvoid
      haveI := instAllAvoidDec S l (applyExtOp o s)
      infer_instance

/-- Strict key order on pairs is vacuously antisymmetric. -/
instance : IsAntisymm (Nat × Nat) (fun p q => p.1 < q.1) :=
  ⟨fun _ _ h₁ h₂ => absurd h₂ (Nat.lt_asymm h₁)⟩

/-! ## Basic lemmas about the `std::map` model -/

namespace SMap

theorem mem_keys_iff {k : Nat} {l : List (Nat × Nat)} :
    k ∈ keys l ↔ ∃ v, (k, v) ∈ l := by
  constructor
  · intro h
    rcases List.mem_map.1 h with ⟨p, hp, hk⟩
    exact ⟨p.2, by simpa [← hk] using hp⟩
  · rintro ⟨v, hv⟩
    exact List.mem_map.2 ⟨(k, v), hv, rfl⟩

theorem lookup_eq_none_iff {k : Nat} {l : List (Nat × Nat)} :
    lookup k l = none ↔ k ∉ keys l := by
  induction l with
  | nil => simp [lookup, keys]
  | cons p t ih =>
    obtain ⟨a, b⟩ := p
    by_cases hk : k = a
    · subst hk; simp [lookup, keys]
    · simp [lookup, hk, keys, ih]

theorem mem_of_lookup_eq_some {k v : Nat} {l : List (Nat × Nat)} :
    lookup k l = some v → (k, v) ∈ l := by
  induction l with
  | nil => simp [lookup]
  | cons p t ih =>
    obtain ⟨a, b⟩ := p
    by_cases hk : k = a
    · subst hk
      intro h
      have hb : b = v := by simpa [lookup] using h
      subst hb
      exact List.mem_cons_self _ _
    · intro h
      have h' : lookup k t = some v := by simpa [lookup, hk] using h
      exact List.mem_cons_of_mem _ (ih h')

theorem lookup_eq_some_of_mem {k v : Nat} {l : List (Nat × Nat)}
    (hnd : (keys l).Nodup) (h : (k, v) ∈ l) : lookup k l = some v := by
  induction l with
  | nil => cases h
  | cons p t ih =>
    obtain ⟨a, b⟩ := p
    have hnd' : a ∉ keys t ∧ (keys t).Nodup := by
      simpa [keys, List.nodup_cons] using hnd
    rcases List.mem_cons.1 h with heq | hmem
    · injection heq with h1 h2
      subst h1; subst h2
      simp [lookup]
    · have hk : k ≠ a := by
        rintro rfl
        exact hnd'.1 (mem_keys_iff.2 ⟨v, hmem⟩)
      simp [lookup, hk, ih hnd'.2 hmem]

theorem value_eq_of_mem {k a b : Nat} {l : List (Nat × Nat)}
    (hnd : (keys l).Nodup) (h₁ : (k, a) ∈ l) (h₂ : (k, b) ∈ l) : a = b := by
  have e₁ := lookup_eq_some_of_mem hnd h₁
  have e₂ := lookup_eq_some_of_mem hnd h₂
  rw [e₁] at e₂
  exact Option.some.inj e₂

theorem keysSorted_iff_pairwise {l : List (Nat × Nat)} :
    keysSorted l ↔ (keys l).Pairwise (· < ·) := by
  unfold keysSorted keys
  rw [List.pairwise_map]

theorem keysNodup_of_keysSorted {l : List (Nat × Nat)} (hs : keysSorted l) :
    (keys l).Nodup := by
  exact ((keysSorted_iff_pairwise.1 hs).imp Nat.ne_of_lt)

theorem mem_insertSorted_iff {p : Nat × Nat} {k v : Nat} {l : List (Nat × Nat)} :
    p ∈ insertSorted k v l ↔ p = (k, v) ∨ p ∈ l := by
  induction l with
  | nil => simp [insertSorted]
  | cons q t ih =>
    obtain ⟨a, b⟩ := q
    by_cases hk : k < a
    · simp [insertSorted, hk]
    · simp only [insertSorted, if_neg hk, List.mem_cons, ih]
      tauto

theorem insertSorted_perm (k v : Nat) (l : List (Nat × Nat)) :
    List.Perm (insertSorted k v l) ((k, v) :: l) := by
  induction l with
  | nil => exact List.Perm.refl _
  | cons q t ih =>
    obtain ⟨a, b⟩ := q
    by_cases hk : k < a
    · simp [insertSorted, hk]
    · simpa [insertSorted, hk] using ((ih.cons (a, b)).trans (List.Perm.swap _ _ _))

theorem keysSorted_insertSorted {k v : Nat} {l : List (Nat × Nat)}
    (hs : keysSorted l) (hk : k ∉ keys l) : keysSorted (insertSorted k v l) := by
  induction l with
  | nil => simp [insertSorted, keysSorted]
  | cons q t ih =>
    obtain ⟨a, b⟩ := q
    rw [show keys ((a, b) :: t) = a :: keys t from rfl, List.mem_cons] at hk
    push_neg at hk
    obtain ⟨hka, hkt⟩ := hk
    have hhead : ∀ q' ∈ t, a < q'.1 := by
      intro q' hq'
      exact (List.pairwise_cons.1 hs).1 q' hq'
    have hst : keysSorted t := (List.pairwise_cons.1 hs).2
    by_cases hlt : k < a
    · simp only [insertSorted, if_pos hlt]
      refine List.pairwise_cons.2 ⟨?_, hs⟩
      intro q' hq'
      rcases List.mem_cons.1 hq' with rfl | hq'
      · exact hlt
      · exact Nat.lt_trans hlt (hhead _ hq')
    · have halt : a < k := Nat.lt_of_le_of_ne (Nat.le_of_not_lt hlt) (Ne.symm hka)
      simp only [insertSorted, if_neg hlt]
      refine List.pairwise_cons.2 ⟨?_, ih hst hkt⟩
      intro q' hq'
      rcases mem_insertSorted_iff.1 hq' with rfl | hq'
      · exact halt
      · exact hhead _ hq'

end SMap

namespace SMap

theorem emplace_eq_of_lookup_some {k v w : Nat} {l : List (Nat × Nat)}
    (h : lookup k l = some w) : emplace k v l = l := by
  unfold emplace
  rw [h]

theorem emplace_eq_of_lookup_none {k v : Nat} {l : List (Nat × Nat)}
    (h : lookup k l = none) : emplace k v l = insertSorted k v l := by
  unfold emplace
  rw [h]

theorem mem_emplace_iff {p : Nat × Nat} {k v : Nat} {l : List (Nat × Nat)}
    (h : lookup k l = none) : p ∈ emplace k v l ↔ p = (k, v) ∨ p ∈ l := by
  rw [emplace_eq_of_lookup_none h, mem_insertSorted_iff]

theorem mem_emplace_of_mem {p : Nat × Nat} {k v : Nat} {l : List (Nat × Nat)}
    (h : p ∈ l) : p ∈ emplace k v l := by
  unfold emplace
  cases hl : lookup k l with
  | some w => exact h
  | none => exact mem_insertSorted_iff.2 (Or.inr h)

theorem keysSorted_emplace {k v : Nat} {l : List (Nat × Nat)}
    (hs : keysSorted l) : keysSorted (emplace k v l) := by
  unfold emplace
  cases hl : lookup k l with
  | some w => exact hs
  | none => exact keysSorted_insertSorted hs (lookup_eq_none_iff.1 hl)

theorem fst_mem_keys {q : Nat × Nat} {l : List (Nat × Nat)} (h : q ∈ l) :
    q.1 ∈ keys l :=
  List.mem_map.2 ⟨q, h, rfl⟩

theorem erase_sublist (k : Nat) (l : List (Nat × Nat)) :
    (erase k l).Sublist l := by
  induction l with
  | nil => simp [erase]
  | cons q t ih =>
    obtain ⟨a, b⟩ := q
    by_cases hk : k = a
    · have he : erase k ((a, b) :: t) = t := by simp [erase, hk]
      rw [he]
      exact (List.Sublist.refl t).cons (a, b)
    · have he : erase k ((a, b) :: t) = (a, b) :: erase k t := by simp [erase, hk]
      rw [he]
      exact ih.cons₂ (a, b)

theorem keysSorted_erase {k : Nat} {l : List (Nat × Nat)}
    (hs : keysSorted l) : keysSorted (erase k l) :=
  hs.sublist (erase_sublist k l)

theorem mem_erase_iff {p : Nat × Nat} {k : Nat} {l : List (Nat × Nat)}
    (hnd : (keys l).Nodup) : p ∈ erase k l ↔ p ∈ l ∧ p.1 ≠ k := by
  induction l with
  | nil => simp [erase]
  | cons q t ih =>
    obtain ⟨a, b⟩ := q
    have hcons : keys ((a, b) :: t) = a :: keys t := rfl
    rw [hcons, List.nodup_cons] at hnd
    obtain ⟨hanotin, hndt⟩ := hnd
    have hmemkey : ∀ q : Nat × Nat, q ∈ t → q.1 ≠ a := by
      intro q hq hqa
      exact hanotin (hqa ▸ fst_mem_keys hq)
    by_cases hk : k = a
    · have he : erase k ((a, b) :: t) = t := by simp [erase, hk]
      rw [he]
      constructor
      · intro hp
        exact ⟨List.mem_cons_of_mem _ hp, hk.symm ▸ hmemkey p hp⟩
      · rintro ⟨hp, hne⟩
        rcases List.mem_cons.1 hp with rfl | hp
        · exact absurd hk.symm hne
        · exact hp
    · have he : erase k ((a, b) :: t) = (a, b) :: erase k t := by simp [erase, hk]
      rw [he]
      constructor
      · intro hp
        rcases List.mem_cons.1 hp with rfl | hp
        · exact ⟨List.mem_cons_self _ _, fun h => hk h.symm⟩
        · obtain ⟨hp', hne⟩ := (ih hndt).1 hp
          exact ⟨List.mem_cons_of_mem _ hp', hne⟩
      · rintro ⟨hp, hne⟩
        rcases List.mem_cons.1 hp with rfl | hp
        · exact List.mem_cons_self _ _
        · exact List.mem_cons_of_mem _ ((ih hndt).2 ⟨hp, hne⟩)

theorem lookup_erase_self {k : Nat} {l : List (Nat × Nat)}
    (hnd : (keys l).Nodup) : lookup k (erase k l) = none := by
  rw [lookup_eq_none_iff]
  intro hmem
  rcases mem_keys_iff.1 hmem with ⟨v, hv⟩
  exact ((mem_erase_iff hnd).1 hv).2 rfl

theorem keys_assign (k v : Nat) (l : List (Nat × Nat)) :
    keys (assign k v l) = keys l := by
  induction l with
  | nil => simp [assign]
  | cons q t ih =>
    obtain ⟨a, b⟩ := q
    by_cases hk : k = a
    · have ha : assign k v ((a, b) :: t) = (a, v) :: t := by simp [assign, hk]
      rw [ha]
      rfl
    · have ha : assign k v ((a, b) :: t) = (a, b) :: assign k v t := by
        simp [assign, hk]
      rw [ha]
      show a :: keys (assign k v t) = a :: keys t
      rw [ih]

theorem keysSorted_assign {k v : Nat} {l : List (Nat × Nat)}
    (hs : keysSorted l) : keysSorted (assign k v l) := by
  rw [keysSorted_iff_pairwise, keys_assign]
  exact keysSorted_iff_pairwise.1 hs

theorem mem_assign_iff {p : Nat × Nat} {k v : Nat} {l : List (Nat × Nat)}
    (hnd : (keys l).Nodup) :
    p ∈ assign k v l ↔ (p = (k, v) ∧ k ∈ keys l) ∨ (p ∈ l ∧ p.1 ≠ k) := by
  induction l with
  | nil => simp [assign, keys]
  | cons q t ih =>
    obtain ⟨a, b⟩ := q
    have hkeys : keys ((a, b) :: t) = a :: keys t := rfl
    rw [hkeys, List.nodup_cons] at hnd
    obtain ⟨hanotin, hndt⟩ := hnd
    have hmemkey : ∀ q : Nat × Nat, q ∈ t → q.1 ≠ a := by
      intro q hq hqa
      exact hanotin (hqa ▸ fst_mem_keys hq)
    by_cases hk : k = a
    · subst hk
      have ha : assign k v ((k, b) :: t) = (k, v) :: t := by simp [assign]
      rw [ha, hkeys]
      constructor
      · intro hp
        rcases List.mem_cons.1 hp with rfl | hp
        · exact Or.inl ⟨rfl, List.mem_cons_self _ _⟩
        · exact Or.inr ⟨List.mem_cons_of_mem _ hp, hmemkey p hp⟩
      · rintro (⟨rfl, _⟩ | ⟨hp, hne⟩)
        · exact List.mem_cons_self _ _
        · rcases List.mem_cons.1 hp with rfl | hp
          · exact absurd rfl hne
          · exact List.mem_cons_of_mem _ hp
    · have ha : assign k v ((a, b) :: t) = (a, b) :: assign k v t := by
        simp [assign, hk]
      rw [ha]
      constructor
      · intro hp
        rcases List.mem_cons.1 hp with rfl | hp
        · exact Or.inr ⟨List.mem_cons_self _ _, fun h => hk h.symm⟩
        · rcases (ih hndt).1 hp with ⟨rfl, hmem⟩ | ⟨hp', hne⟩
          · exact Or.inl ⟨rfl, by rw [hkeys]; exact List.mem_cons_of_mem _ hmem⟩
          · exact Or.inr ⟨List.mem_cons_of_mem _ hp', hne⟩
      · rintro (⟨rfl, hmem⟩ | ⟨hp, hne⟩)
        · rw [hkeys] at hmem
          rcases List.mem_cons.1 hmem with rfl | hmem
          · exact absurd rfl hk
          · exact List.mem_cons_of_mem _ ((ih hndt).2 (Or.inl ⟨rfl, hmem⟩))
        · rcases List.mem_cons.1 hp with rfl | hp
          · exact List.mem_cons_self _ _
          · exact List.mem_cons_of_mem _ ((ih hndt).2 (Or.inr ⟨hp, hne⟩))

theorem keys_emplace_subset (k v : Nat) (l : List (Nat × Nat)) :
    keys (emplace k v l) ⊆ k :: keys l := by
  unfold emplace
  cases hl : lookup k l with
  | some w => exact fun x hx => List.mem_cons_of_mem _ hx
  | none =>
    intro x hx
    rcases mem_keys_iff.1 hx with ⟨w', hw'⟩
    rcases mem_insertSorted_iff.1 hw' with heq | hmem
    · injection heq with h1 _
      exact h1 ▸ List.mem_cons_self _ _
    · exact List.mem_cons_of_mem _ (mem_keys_iff.2 ⟨w', hmem⟩)

end SMap

/-! ## Unfolding equations for the store operations -/

namespace TEQ

theorem addEvent_fst (ts v : Nat) (s : TEQ) :
    (addEvent ts v s).1 =
      { ts2Val := SMap.emplace ts v s.ts2Val,
        val2Ts := SMap.emplace v ts s.val2Ts } := rfl

theorem removeEventByValue_found {s : TEQ} {v ts : Nat}
    (hl : SMap.lookup v s.val2Ts = some ts) :
    (removeEventByValue v s).1 =
      { ts2Val := SMap.erase ts s.ts2Val,
        val2Ts := SMap.erase v s.val2Ts } := by
  simp only [removeEventByValue, hl]

theorem removeEventByValue_notfound {s : TEQ} {v : Nat}
    (hl : SMap.lookup v s.val2Ts = none) :
    removeEventByValue v s = (s, false) := by
  simp only [removeEventByValue, hl]

theorem removeEventByTimestamp_found {s : TEQ} {ts v : Nat}
    (hl : SMap.lookup ts s.ts2Val = some v) :
    (removeEventByTimestamp ts s).1 =
      { ts2Val := SMap.erase ts s.ts2Val,
        val2Ts := SMap.erase v s.val2Ts } := by
  simp only [removeEventByTimestamp, hl]

theorem removeEventByTimestamp_notfound {s : TEQ} {ts : Nat}
    (hl : SMap.lookup ts s.ts2Val = none) :
    removeEventByTimestamp ts s = (s, false) := by
  simp only [removeEventByTimestamp, hl]

theorem updateValue_found {s : TEQ} {ts v oldV oldTs : Nat}
    (hl : SMap.lookup ts s.ts2Val = some oldV)
    (hlold : SMap.lookup oldV s.val2Ts = some oldTs) :
    (updateValue ts v s).1 =
      { ts2Val := SMap.assign ts v s.ts2Val,
        val2Ts := SMap.emplace v oldTs (SMap.erase oldV s.val2Ts) } := by
  simp only [updateValue, hl, hlold]

theorem updateValue_notfound {s : TEQ} {ts v : Nat}
    (hl : SMap.lookup ts s.ts2Val = none) :
    updateValue ts v s = (s, true) := by
  simp only [updateValue, hl]

theorem updateTimestamp_found {s : TEQ} {ts v oldTs w : Nat}
    (hl : SMap.lookup v s.val2Ts = some oldTs)
    (hlold : SMap.lookup oldTs s.ts2Val = some w) :
    (updateTimestamp ts v s).1 =
      { ts2Val := SMap.emplace ts w (SMap.erase oldTs s.ts2Val),
        val2Ts := SMap.assign v ts s.val2Ts } := by
  simp only [updateTimestamp, hl, hlold]

theorem updateTimestamp_notfound {s : TEQ} {ts v : Nat}
    (hl : SMap.lookup v s.val2Ts = none) :
    updateTimestamp ts v s = (s, true) := by
  simp only [updateTimestamp, hl]

end TEQ

/-! ## Preservation of the bijection invariant -/

namespace TEQ

theorem inv_addEvent {s : TEQ} {ts v : Nat} (h : Inv s)
    (hts : SMap.lookup ts s.ts2Val = none)
    (hv : SMap.lookup v s.val2Ts = none) :
    Inv (addEvent ts v s).1 := by
  obtain ⟨⟨hs1, hs2⟩, hm1, hm2⟩ := h
  rw [addEvent_fst]
  refine ⟨⟨SMap.keysSorted_emplace hs1, SMap.keysSorted_emplace hs2⟩, ?_, ?_⟩
  · intro p hp
    rcases (SMap.mem_emplace_iff hts).1 hp with rfl | hp
    · exact (SMap.mem_emplace_iff hv).2 (Or.inl rfl)
    · exact SMap.mem_emplace_of_mem (hm1 p hp)
  · intro q hq
    rcases (SMap.mem_emplace_iff hv).1 hq with rfl | hq
    · exact (SMap.mem_emplace_iff hts).2 (Or.inl rfl)
    · exact SMap.mem_emplace_of_mem (hm2 q hq)

theorem inv_removeV {s : TEQ} {v : Nat} (h : Inv s) :
    Inv (removeEventByValue v s).1 := by
  obtain ⟨⟨hs1, hs2⟩, hm1, hm2⟩ := h
  have hnd1 := SMap.keysNodup_of_keysSorted hs1
  have hnd2 := SMap.keysNodup_of_keysSorted hs2
  cases hl : SMap.lookup v s.val2Ts with
  | none => rw [removeEventByValue_notfound hl]; exact ⟨⟨hs1, hs2⟩, hm1, hm2⟩
  | some ts =>
    have hvts : (v, ts) ∈ s.val2Ts := SMap.mem_of_lookup_eq_some hl
    have htsv : (ts, v) ∈ s.ts2Val := hm2 _ hvts
    rw [removeEventByValue_found hl]
    refine ⟨⟨SMap.keysSorted_erase hs1, SMap.keysSorted_erase hs2⟩, ?_, ?_⟩
    · intro p hp
      obtain ⟨hp, hne⟩ := (SMap.mem_erase_iff hnd1).1 hp
      have hp2 : p.2 ≠ v := by
        intro h2
        exact hne (SMap.value_eq_of_mem hnd2 (h2 ▸ hm1 p hp) hvts)
      exact (SMap.mem_erase_iff hnd2).2 ⟨hm1 p hp, hp2⟩
    · intro q hq
      obtain ⟨hq, hne⟩ := (SMap.mem_erase_iff hnd2).1 hq
      have hq2 : q.2 ≠ ts := by
        intro h2
        exact hne (SMap.value_eq_of_mem hnd1 (h2 ▸ hm2 q hq) htsv)
      exact (SMap.mem_erase_iff hnd1).2 ⟨hm2 q hq, hq2⟩

theorem inv_removeT {s : TEQ} {ts : Nat} (h : Inv s) :
    Inv (removeEventByTimestamp ts s).1 := by
  obtain ⟨⟨hs1, hs2⟩, hm1, hm2⟩ := h
  have hnd1 := SMap.keysNodup_of_keysSorted hs1
  have hnd2 := SMap.keysNodup_of_keysSorted hs2
  cases hl : SMap.lookup ts s.ts2Val with
  | none => rw [removeEventByTimestamp_notfound hl]; exact ⟨⟨hs1, hs2⟩, hm1, hm2⟩
  | some v =>
    have htsv : (ts, v) ∈ s.ts2Val := SMap.mem_of_lookup_eq_some hl
    have hvts : (v, ts) ∈ s.val2Ts := hm1 _ htsv
    rw [removeEventByTimestamp_found hl]
    refine ⟨⟨SMap.keysSorted_erase hs1, SMap.keysSorted_erase hs2⟩, ?_, ?_⟩
    · intro p hp
      obtain ⟨hp, hne⟩ := (SMap.mem_erase_iff hnd1).1 hp
      have hp2 : p.2 ≠ v := by
        intro h2
        exact hne (SMap.value_eq_of_mem hnd2 (h2 ▸ hm1 p hp) hvts)
      exact (SMap.mem_erase_iff hnd2).2 ⟨hm1 p hp, hp2⟩
    · intro q hq
      obtain ⟨hq, hne⟩ := (SMap.mem_erase_iff hnd2).1 hq
      have hq2 : q.2 ≠ ts := by
        intro h2
        exact hne (SMap.value_eq_of_mem hnd1 (h2 ▸ hm2 q hq) htsv)
      exact (SMap.mem_erase_iff hnd1).2 ⟨hm2 q hq, hq2⟩

theorem lookup_of_inv_ts {s : TEQ} (h : Inv s) {ts oldV : Nat}
    (hl : SMap.lookup ts s.ts2Val = some oldV) :
    SMap.lookup oldV s.val2Ts = some ts :=
  SMap.lookup_eq_some_of_mem (SMap.keysNodup_of_keysSorted h.1.2)
    (h.2.1 _ (SMap.mem_of_lookup_eq_some hl))

theorem lookup_of_inv_val {s : TEQ} (h : Inv s) {v oldTs : Nat}
    (hl : SMap.lookup v s.val2Ts = some oldTs) :
    SMap.lookup oldTs s.ts2Val = some v :=
  SMap.lookup_eq_some_of_mem (SMap.keysNodup_of_keysSorted h.1.1)
    (h.2.2 _ (SMap.mem_of_lookup_eq_some hl))

theorem inv_updateValue {s : TEQ} {ts v : Nat} (h : Inv s)
    (hv : SMap.lookup v s.val2Ts = none) :
    Inv (updateValue ts v s).1 := by
  have hInv : Inv s := h
  obtain ⟨⟨hs1, hs2⟩, hm1, hm2⟩ := h
  have hnd1 := SMap.keysNodup_of_keysSorted hs1
  have hnd2 := SMap.keysNodup_of_keysSorted hs2
  cases hl : SMap.lookup ts s.ts2Val with
  | none => rw [(updateValue_notfound hl : updateValue ts v s = (s, true))]
            exact ⟨⟨hs1, hs2⟩, hm1, hm2⟩
  | some oldV =>
    have hlold : SMap.lookup oldV s.val2Ts = some ts := lookup_of_inv_ts hInv hl
    have htsold : (ts, oldV) ∈ s.ts2Val := SMap.mem_of_lookup_eq_some hl
    have holdts : (oldV, ts) ∈ s.val2Ts := SMap.mem_of_lookup_eq_some hlold
    have hverase : SMap.lookup v (SMap.erase oldV s.val2Ts) = none := by
      rw [SMap.lookup_eq_none_iff]
      intro hmem
      exact (SMap.lookup_eq_none_iff.1 hv)
        (((SMap.erase_sublist oldV s.val2Ts).map Prod.fst).subset hmem)
    rw [updateValue_found hl hlold]
    refine ⟨⟨SMap.keysSorted_assign hs1,
             SMap.keysSorted_emplace (SMap.keysSorted_erase hs2)⟩, ?_, ?_⟩
    · intro p hp
      rcases (SMap.mem_assign_iff hnd1).1 hp with ⟨rfl, _⟩ | ⟨hp, hne⟩
      · exact (SMap.mem_emplace_iff hverase).2 (Or.inl rfl)
      · have hp2 : p.2 ≠ oldV := by
          intro h2
          exact hne (SMap.value_eq_of_mem hnd2 (h2 ▸ hm1 p hp) holdts)
        exact SMap.mem_emplace_of_mem ((SMap.mem_erase_iff hnd2).2 ⟨hm1 p hp, hp2⟩)
    · intro q hq
      rcases (SMap.mem_emplace_iff hverase).1 hq with rfl | hq
      · exact (SMap.mem_assign_iff hnd1).2 (Or.inl ⟨rfl, SMap.fst_mem_keys htsold⟩)
      · obtain ⟨hq, hne⟩ := (SMap.mem_erase_iff hnd2).1 hq
        have hq2 : q.2 ≠ ts := by
          intro h2
          exact hne (SMap.value_eq_of_mem hnd1 (h2 ▸ hm2 q hq) htsold)
        exact (SMap.mem_assign_iff hnd1).2 (Or.inr ⟨hm2 q hq, hq2⟩)

theorem inv_updateTimestamp {s : TEQ} {ts v : Nat} (h : Inv s)
    (hts : SMap.lookup ts s.ts2Val = none) :
    Inv (updateTimestamp ts v s).1 := by
  have hInv : Inv s := h
  obtain ⟨⟨hs1, hs2⟩, hm1, hm2⟩ := h
  have hnd1 := SMap.keysNodup_of_keysSorted hs1
  have hnd2 := SMap.keysNodup_of_keysSorted hs2
  cases hl : SMap.lookup v s.val2Ts with
  | none => rw [(updateTimestamp_notfound hl : updateTimestamp ts v s = (s, true))]
            exact ⟨⟨hs1, hs2⟩, hm1, hm2⟩
  | some oldTs =>
    have hlold : SMap.lookup oldTs s.ts2Val = some v := lookup_of_inv_val hInv hl
    have hvold : (v, oldTs) ∈ s.val2Ts := SMap.mem_of_lookup_eq_some hl
    have holdv : (oldTs, v) ∈ s.ts2Val := SMap.mem_of_lookup_eq_some hlold
    have htserase : SMap.lookup ts (SMap.erase oldTs s.ts2Val) = none := by
      rw [SMap.lookup_eq_none_iff]
      intro hmem
      exact (SMap.lookup_eq_none_iff.1 hts)
        (((SMap.erase_sublist oldTs s.ts2Val).map Prod.fst).subset hmem)
    rw [updateTimestamp_found hl hlold]
    refine ⟨⟨SMap.keysSorted_emplace (SMap.keysSorted_erase hs1),
             SMap.keysSorted_assign hs2⟩, ?_, ?_⟩
    · intro p hp
      rcases (SMap.mem_emplace_iff htserase).1 hp with rfl | hp
      · exact (SMap.mem_assign_iff hnd2).2 (Or.inl ⟨rfl, SMap.fst_mem_keys hvold⟩)
      · obtain ⟨hp, hne⟩ := (SMap.mem_erase_iff hnd1).1 hp
        have hp2 : p.2 ≠ v := by
          intro h2
          exact hne (SMap.value_eq_of_mem hnd2 (h2 ▸ hm1 p hp) hvold)
        exact (SMap.mem_assign_iff hnd2).2 (Or.inr ⟨hm1 p hp, hp2⟩)
    · intro q hq
      rcases (SMap.mem_assign_iff hnd2).1 hq with ⟨rfl, _⟩ | ⟨hq, hne⟩
      · exact (SMap.mem_emplace_iff htserase).2 (Or.inl rfl)
      · have hq2 : q.2 ≠ oldTs := by
          intro h2
          exact hne (SMap.value_eq_of_mem hnd1 (h2 ▸ hm2 q hq) holdv)
        exact SMap.mem_emplace_of_mem ((SMap.mem_erase_iff hnd1).2 ⟨hm2 q hq, hq2⟩)

end TEQ

/-! ## The drain loop -/

namespace TEQ

theorem inv_drain_step {ts v : Nat} {rest v2t : List (Nat × Nat)}
    (h : Inv ⟨(ts, v) :: rest, v2t⟩) : Inv ⟨rest, SMap.erase v v2t⟩ := by
  obtain ⟨⟨hs1, hs2⟩, hm1, hm2⟩ := h
  have hnd2 := SMap.keysNodup_of_keysSorted hs2
  have hs1' : SMap.keysSorted rest := (List.pairwise_cons.1 hs1).2
  have hnotin : ts ∉ SMap.keys rest := by
    have hnd1 := SMap.keysNodup_of_keysSorted hs1
    have hcons : SMap.keys ((ts, v) :: rest) = ts :: SMap.keys rest := rfl
    rw [hcons, List.nodup_cons] at hnd1
    exact hnd1.1
  have hvt : (v, ts) ∈ v2t := hm1 (ts, v) (List.mem_cons_self _ _)
  refine ⟨⟨hs1', SMap.keysSorted_erase hs2⟩, ?_, ?_⟩
  · intro p hp
    have hp2 : p.2 ≠ v := by
      intro h2
      have h1 : p.1 = ts :=
        SMap.value_eq_of_mem hnd2 (h2 ▸ hm1 p (List.mem_cons_of_mem _ hp)) hvt
      exact hnotin (h1 ▸ SMap.fst_mem_keys hp)
    exact (SMap.mem_erase_iff hnd2).2 ⟨hm1 p (List.mem_cons_of_mem _ hp), hp2⟩
  · intro q hq
    obtain ⟨hq, hne⟩ := (SMap.mem_erase_iff hnd2).1 hq
    rcases List.mem_cons.1 (hm2 q hq) with he | hm
    · injection he with _ h2
      exact absurd h2 hne
    · exact hm

theorem inv_drain (now : Nat) : ∀ (t2v v2t : List (Nat × Nat)), Inv ⟨t2v, v2t⟩ →
    Inv ⟨(drainAux now t2v v2t).2.1, (drainAux now t2v v2t).2.2⟩
  | [], v2t, h => by simpa [drainAux] using h
  | (ts, v) :: rest, v2t, h => by
      by_cases hle : ts ≤ now
      · have := inv_drain now rest (SMap.erase v v2t) (inv_drain_step h)
        simpa [drainAux, hle] using this
      · simpa [drainAux, hle] using h

theorem drain_fired_append (now : Nat) : ∀ (t2v v2t : List (Nat × Nat)),
    (drainAux now t2v v2t).1 ++ (drainAux now t2v v2t).2.1 = t2v
  | [], v2t => by simp [drainAux]
  | (ts, v) :: rest, v2t => by
      by_cases hle : ts ≤ now
      · simp [drainAux, hle, drain_fired_append now rest (SMap.erase v v2t)]
      · simp [drainAux, hle]

theorem drain_fired_le (now : Nat) : ∀ (t2v v2t : List (Nat × Nat)),
    ∀ p ∈ (drainAux now t2v v2t).1, p.1 ≤ now
  | [], v2t => by simp [drainAux]
  | (ts, v) :: rest, v2t => by
      by_cases hle : ts ≤ now
      · intro p hp
        simp only [drainAux, if_pos hle] at hp
        rcases List.mem_cons.1 hp with rfl | hp
        · exact hle
        · exact drain_fired_le now rest (SMap.erase v v2t) p hp
      · simp [drainAux, hle]

theorem drain_rem_gt (now : Nat) : ∀ (t2v v2t : List (Nat × Nat)),
    SMap.keysSorted t2v → ∀ p ∈ (drainAux now t2v v2t).2.1, now < p.1
  | [], v2t, _ => by simp [drainAux]
  | (ts, v) :: rest, v2t, hs => by
      by_cases hle : ts ≤ now
      · have := drain_rem_gt now rest (SMap.erase v v2t) ((List.pairwise_cons.1 hs).2)
        simpa [drainAux, hle] using this
      · intro p hp
        simp only [drainAux, if_neg hle] at hp
        rcases List.mem_cons.1 hp with rfl | hp
        · exact Nat.lt_of_not_le hle
        · exact Nat.lt_trans (Nat.lt_of_not_le hle) ((List.pairwise_cons.1 hs).1 p hp)

theorem drain_rem_t2v_sublist (now : Nat) : ∀ (t2v v2t : List (Nat × Nat)),
    ((drainAux now t2v v2t).2.1).Sublist t2v
  | [], v2t => by simp [drainAux]
  | (ts, v) :: rest, v2t => by
      by_cases hle : ts ≤ now
      · have := drain_rem_t2v_sublist now rest (SMap.erase v v2t)
        simp only [drainAux, if_pos hle]
        exact this.cons (ts, v)
      · simp [drainAux, hle]

theorem drain_rem_v2t_sublist (now : Nat) : ∀ (t2v v2t : List (Nat × Nat)),
    ((drainAux now t2v v2t).2.2).Sublist v2t
  | [], v2t => by simp [drainAux]
  | (ts, v) :: rest, v2t => by
      by_cases hle : ts ≤ now
      · have h1 := drain_rem_v2t_sublist now rest (SMap.erase v v2t)
        simp only [drainAux, if_pos hle]
        exact h1.trans (SMap.erase_sublist v v2t)
      · simp [drainAux, hle]

theorem sentinel_drain (now S : Nat) : ∀ (t2v v2t : List (Nat × Nat)),
    Inv ⟨t2v, v2t⟩ → (S, 0) ∈ t2v → now < S →
    (S, 0) ∈ (drainAux now t2v v2t).2.1
  | [], _, _, hmem, _ => by cases hmem
  | (ts, v) :: rest, v2t, h, hmem, hlt => by
      by_cases hle : ts ≤ now
      · have hmem' : (S, 0) ∈ rest := by
          rcases List.mem_cons.1 hmem with he | hm
          · injection he with h1 _
            exact absurd hle (by omega)
          · exact hm
        have := sentinel_drain now S rest (SMap.erase v v2t) (inv_drain_step h) hmem' hlt
        simpa [drainAux, hle] using this
      · simpa [drainAux, hle] using hmem

end TEQ

/-- `distinctOK` suffices for each single call to preserve the
bijection invariant. -/
theorem inv_applyOp {o : Op} {s : TEQ} (h : TEQ.Inv s) (hok : distinctOK o s) :
    TEQ.Inv (applyOp o s) := by
  cases o with
  | add ts v => exact TEQ.inv_addEvent h hok.1 hok.2
  | removeV v => exact TEQ.inv_removeV h
  | removeT ts => exact TEQ.inv_removeT h
  | updV ts v => exact TEQ.inv_updateValue h hok
  | updT ts v => exact TEQ.inv_updateTimestamp h hok

/-! ## Sentinel preservation -/

theorem inv_initState (now0 : Nat) : TEQ.Inv (TEQ.initState now0) := by
  show TEQ.Inv { ts2Val := [(TEQ.centennial now0, 0)],
                 val2Ts := [(0, TEQ.centennial now0)] }
  refine ⟨⟨by simp [SMap.keysSorted], by simp [SMap.keysSorted]⟩, ?_, ?_⟩
  · intro p hp
    rw [List.mem_singleton] at hp
    subst hp
    simp
  · intro q hq
    rw [List.mem_singleton] at hq
    subst hq
    simp

theorem sinv_initState (now0 : Nat) :
    TEQ.SInv (TEQ.centennial now0) (TEQ.initState now0) :=
  ⟨inv_initState now0, by
    show (TEQ.centennial now0, 0) ∈ [(TEQ.centennial now0, 0)]
    exact List.mem_singleton.2 rfl⟩

theorem sinv_applyExtOp {S : Nat} {o : ExtOp} {s : TEQ}
    (h : TEQ.SInv S s) (hok : avoidsSentinel S o s) :
    TEQ.SInv S (applyExtOp o s) := by
  obtain ⟨hInv, hmem⟩ := h
  have hnd1 := SMap.keysNodup_of_keysSorted hInv.1.1
  cases o with
  | drainStep now =>
      exact ⟨TEQ.inv_drain now s.ts2Val s.val2Ts hInv,
             TEQ.sentinel_drain now S s.ts2Val s.val2Ts hInv hmem hok⟩
  | api o =>
    cases o with
    | add ts v =>
        refine ⟨inv_applyOp hInv hok, ?_⟩
        show (S, 0) ∈ (TEQ.addEvent ts v s).1.ts2Val
        rw [TEQ.addEvent_fst]
        exact SMap.mem_emplace_of_mem hmem
    | removeV v =>
        refine ⟨inv_applyOp hInv trivial, ?_⟩
        show (S, 0) ∈ (TEQ.removeEventByValue v s).1.ts2Val
        cases hl : SMap.lookup v s.val2Ts with
        | none => rw [TEQ.removeEventByValue_notfound hl]; exact hmem
        | some ts0 =>
            have hts0 : (ts0, v) ∈ s.ts2Val :=
              hInv.2.2 _ (SMap.mem_of_lookup_eq_some hl)
            have hne : S ≠ ts0 := by
              intro he
              have h0v : (0 : Nat) = v :=
                SMap.value_eq_of_mem hnd1 (he ▸ hmem) hts0
              exact hok h0v.symm
            rw [TEQ.removeEventByValue_found hl]
            exact (SMap.mem_erase_iff hnd1).2 ⟨hmem, hne⟩
    | removeT ts =>
        refine ⟨inv_applyOp hInv trivial, ?_⟩
        show (S, 0) ∈ (TEQ.removeEventByTimestamp ts s).1.ts2Val
        cases hl : SMap.lookup ts s.ts2Val with
        | none => rw [TEQ.removeEventByTimestamp_notfound hl]; exact hmem
        | some v0 =>
            rw [TEQ.removeEventByTimestamp_found hl]
            exact (SMap.mem_erase_iff hnd1).2 ⟨hmem, fun he => hok (he.symm ▸ rfl)⟩
    | updV ts v =>
        refine ⟨inv_applyOp hInv hok.2, ?_⟩
        show (S, 0) ∈ (TEQ.updateValue ts v s).1.ts2Val
        cases hl : SMap.lookup ts s.ts2Val with
        | none =>
            rw [(TEQ.updateValue_notfound hl : TEQ.updateValue ts v s = (s, true))]
            exact hmem
        | some oldV =>
            rw [TEQ.updateValue_found hl (TEQ.lookup_of_inv_ts hInv hl)]
            exact (SMap.mem_assign_iff hnd1).2
              (Or.inr ⟨hmem, fun he => hok.1 (he.symm ▸ rfl)⟩)
    | updT ts v =>
        refine ⟨inv_applyOp hInv hok.2, ?_⟩
        show (S, 0) ∈ (TEQ.updateTimestamp ts v s).1.ts2Val
        cases hl : SMap.lookup v s.val2Ts with
        | none =>
            rw [(TEQ.updateTimestamp_notfound hl : TEQ.updateTimestamp ts v s = (s, true))]
            exact hmem
        | some oldTs =>
            have hlold := TEQ.lookup_of_inv_val hInv hl
            have holdv : (oldTs, v) ∈ s.ts2Val := SMap.mem_of_lookup_eq_some hlold
            have hne : S ≠ oldTs := by
              intro he
              have h0v : (0 : Nat) = v :=
                SMap.value_eq_of_mem hnd1 (he ▸ hmem) holdv
              exact hok.1 h0v.symm
            rw [TEQ.updateTimestamp_found hl hlold]
            exact SMap.mem_emplace_of_mem ((SMap.mem_erase_iff hnd1).2 ⟨hmem, hne⟩)

theorem sinv_applyExtOps {S : Nat} : ∀ (l : List ExtOp) (s : TEQ),
    TEQ.SInv S s → allAvoid S l s → TEQ.SInv S (applyExtOps l s)
  | [], _, h, _ => h
  | o :: l, s, h, hok =>
      sinv_applyExtOps l (applyExtOp o s) (sinv_applyExtOp h hok.1) hok.2

/-! ## Insertion-order independence of a batch of addEvent calls -/

theorem teq_ext_eq {s₁ s₂ : TEQ} (h1 : s₁.ts2Val = s₂.ts2Val)
    (h2 : s₁.val2Ts = s₂.val2Ts) : s₁ = s₂ := by
  cases s₁
  cases s₂
  simp_all

theorem wf_addAll : ∀ (evs : List (Nat × Nat)) (s : TEQ),
    TEQ.WF s → TEQ.WF (TEQ.addAll evs s)
  | [], _, h => h
  | _ :: evs, _, h =>
      wf_addAll evs _ ⟨SMap.keysSorted_emplace h.1, SMap.keysSorted_emplace h.2⟩

theorem freshEvents_tail {e : Nat × Nat} {evs : List (Nat × Nat)} {s : TEQ}
    (h : TEQ.freshEvents (e :: evs) s) :
    TEQ.freshEvents evs (TEQ.addEvent e.1 e.2 s).1 := by
  obtain ⟨hnf, hns, hall⟩ := h
  have hmf : (e :: evs).map Prod.fst = e.1 :: evs.map Prod.fst := rfl
  have hms : (e :: evs).map Prod.snd = e.2 :: evs.map Prod.snd := rfl
  rw [hmf, List.nodup_cons] at hnf
  rw [hms, List.nodup_cons] at hns
  refine ⟨hnf.2, hns.2, ?_⟩
  intro e' he'
  have h1 : e'.1 ≠ e.1 := by
    intro heq
    exact hnf.1 (heq ▸ List.mem_map.2 ⟨e', he', rfl⟩)
  have h2 : e'.2 ≠ e.2 := by
    intro heq
    exact hns.1 (heq ▸ List.mem_map.2 ⟨e', he', rfl⟩)
  have hbase := hall e' (List.mem_cons_of_mem _ he')
  rw [TEQ.addEvent_fst]
  constructor
  · intro hmem
    rcases List.mem_cons.1 (SMap.keys_emplace_subset e.1 e.2 s.ts2Val hmem) with
      heq | hmem'
    · exact h1 heq
    · exact hbase.1 hmem'
  · intro hmem
    rcases List.mem_cons.1 (SMap.keys_emplace_subset e.2 e.1 s.val2Ts hmem) with
      heq | hmem'
    · exact h2 heq
    · exact hbase.2 hmem'

theorem addAll_ts2Val_perm : ∀ (evs : List (Nat × Nat)) (s : TEQ),
    TEQ.freshEvents evs s →
    List.Perm (TEQ.addAll evs s).ts2Val (evs ++ s.ts2Val)
  | [], _, _ => List.Perm.refl _
  | e :: evs, s, h => by
      have ih := addAll_ts2Val_perm evs _ (freshEvents_tail h)
      have hfresh : SMap.lookup e.1 s.ts2Val = none :=
        SMap.lookup_eq_none_iff.2 (h.2.2 e (List.mem_cons_self _ _)).1
      have hemp : List.Perm (SMap.emplace e.1 e.2 s.ts2Val)
          ((e.1, e.2) :: s.ts2Val) := by
        rw [SMap.emplace_eq_of_lookup_none hfresh]
        exact SMap.insertSorted_perm _ _ _
      have step1 : List.Perm (evs ++ (TEQ.addEvent e.1 e.2 s).1.ts2Val)
          (evs ++ (e.1, e.2) :: s.ts2Val) := by
        rw [TEQ.addEvent_fst]
        exact List.Perm.append_left evs hemp
      have step2 : List.Perm (evs ++ (e.1, e.2) :: s.ts2Val)
          ((e.1, e.2) :: (evs ++ s.ts2Val)) := List.perm_middle
      exact (ih.trans (step1.trans step2))

theorem addAll_val2Ts_perm : ∀ (evs : List (Nat × Nat)) (s : TEQ),
    TEQ.freshEvents evs s →
    List.Perm (TEQ.addAll evs s).val2Ts
      (evs.map (fun e => (e.2, e.1)) ++ s.val2Ts)
  | [], _, _ => List.Perm.refl _
  | e :: evs, s, h => by
      have ih := addAll_val2Ts_perm evs _ (freshEvents_tail h)
      have hfresh : SMap.lookup e.2 s.val2Ts = none :=
        SMap.lookup_eq_none_iff.2 (h.2.2 e (List.mem_cons_self _ _)).2
      have hemp : List.Perm (SMap.emplace e.2 e.1 s.val2Ts)
          ((e.2, e.1) :: s.val2Ts) := by
        rw [SMap.emplace_eq_of_lookup_none hfresh]
        exact SMap.insertSorted_perm _ _ _
      have step1 : List.Perm
          (evs.map (fun e => (e.2, e.1)) ++ (TEQ.addEvent e.1 e.2 s).1.val2Ts)
          (evs.map (fun e => (e.2, e.1)) ++ (e.2, e.1) :: s.val2Ts) := by
        rw [TEQ.addEvent_fst]
        exact List.Perm.append_left _ hemp
      have step2 : List.Perm
          (evs.map (fun e => (e.2, e.1)) ++ (e.2, e.1) :: s.val2Ts)
          ((e.2, e.1) :: (evs.map (fun e => (e.2, e.1)) ++ s.val2Ts)) :=
        List.perm_middle
      exact (ih.trans (step1.trans step2))

theorem freshEvents_of_perm {evs₁ evs₂ : List (Nat × Nat)} {s : TEQ}
    (hp : List.Perm evs₁ evs₂) (h : TEQ.freshEvents evs₁ s) :
    TEQ.freshEvents evs₂ s := by
  obtain ⟨hnf, hns, hall⟩ := h
  refine ⟨(hp.map Prod.fst).nodup_iff.1 hnf, (hp.map Prod.snd).nodup_iff.1 hns, ?_⟩
  intro e he
  exact hall e (hp.mem_iff.2 he)

theorem addAll_perm_invariant {evs₁ evs₂ : List (Nat × Nat)} {s : TEQ}
    (hp : List.Perm evs₁ evs₂) (h : TEQ.freshEvents evs₁ s) (hwf : TEQ.WF s) :
    TEQ.addAll evs₁ s = TEQ.addAll evs₂ s := by
  have h₂ := freshEvents_of_perm hp h
  have P₁ := addAll_ts2Val_perm evs₁ s h
  have P₂ := addAll_ts2Val_perm evs₂ s h₂
  have Q₁ := addAll_val2Ts_perm evs₁ s h
  have Q₂ := addAll_val2Ts_perm evs₂ s h₂
  have hw₁ := wf_addAll evs₁ s hwf
  have hw₂ := wf_addAll evs₂ s hwf
  refine teq_ext_eq ?_ ?_
  · exact List.eq_of_perm_of_sorted
      (P₁.trans ((hp.append_right s.ts2Val).trans P₂.symm)) hw₁.1 hw₂.1
  · exact List.eq_of_perm_of_sorted
      (Q₁.trans (((hp.map (fun e => (e.2, e.1))).append_right s.val2Ts).trans
        Q₂.symm)) hw₁.2 hw₂.2

/-! ## Fire-and-remove helpers -/

theorem drainAux_cons_due {now ts v : Nat} {rest v2t : List (Nat × Nat)}
    (hle : ts ≤ now) :
    TEQ.drainAux now ((ts, v) :: rest) v2t =
      ((ts, v) :: (TEQ.drainAux now rest (SMap.erase v v2t)).1,
       (TEQ.drainAux now rest (SMap.erase v v2t)).2) := by
  simp [TEQ.drainAux, hle]

theorem drainAux_cons_wait {now ts v : Nat} {rest v2t : List (Nat × Nat)}
    (hle : ¬ ts ≤ now) :
    TEQ.drainAux now ((ts, v) :: rest) v2t = ([], (ts, v) :: rest, v2t) := by
  simp [TEQ.drainAux, hle]

theorem drainTrace_mem (now : Nat) : ∀ (t2v v2t : List (Nat × Nat)),
    TEQ.Inv ⟨t2v, v2t⟩ →
    ∀ e ∈ TEQ.drainTrace now t2v v2t, e.1 ∈ e.2.1 ∧ (e.1.2, e.1.1) ∈ e.2.2
  | [], _, _ => by simp [TEQ.drainTrace]
  | (ts, v) :: rest, v2t, h => by
      by_cases hle : ts ≤ now
      · intro e he
        simp only [TEQ.drainTrace, if_pos hle] at he
        rcases List.mem_cons.1 he with rfl | he
        · exact ⟨List.mem_cons_self _ _, h.2.1 (ts, v) (List.mem_cons_self _ _)⟩
        · exact drainTrace_mem now rest (SMap.erase v v2t)
            (TEQ.inv_drain_step h) e he
      · intro e he
        simp only [TEQ.drainTrace, if_neg hle] at he
        cases he

theorem drain_fired_gone (now : Nat) : ∀ (t2v v2t : List (Nat × Nat)),
    TEQ.Inv ⟨t2v, v2t⟩ →
    ∀ p ∈ (TEQ.drainAux now t2v v2t).1,
      p.1 ∉ SMap.keys (TEQ.drainAux now t2v v2t).2.1 ∧
      p.2 ∉ SMap.keys (TEQ.drainAux now t2v v2t).2.2
  | [], _, _ => by simp [TEQ.drainAux]
  | (ts, v) :: rest, v2t, h => by
      by_cases hle : ts ≤ now
      · rw [drainAux_cons_due hle]
        intro p hp
        rcases List.mem_cons.1 hp with rfl | hp
        · constructor
          · intro hmem
            have hnotin : ts ∉ SMap.keys rest := by
              have hnd1 := SMap.keysNodup_of_keysSorted h.1.1
              have hcons : SMap.keys ((ts, v) :: rest) = ts :: SMap.keys rest :=
                rfl
              rw [hcons, List.nodup_cons] at hnd1
              exact hnd1.1
            exact hnotin
              (((TEQ.drain_rem_t2v_sublist now rest
                (SMap.erase v v2t)).map Prod.fst).subset hmem)
          · intro hmem
            have hvnot : v ∉ SMap.keys (SMap.erase v v2t) := by
              rw [← SMap.lookup_eq_none_iff]
              exact SMap.lookup_erase_self
                (SMap.keysNodup_of_keysSorted h.1.2)
            exact hvnot
              (((TEQ.drain_rem_v2t_sublist now rest
                (SMap.erase v v2t)).map Prod.fst).subset hmem)
        · exact drain_fired_gone now rest (SMap.erase v v2t)
            (TEQ.inv_drain_step h) p hp
      · rw [drainAux_cons_wait hle]
        intro p hp
        cases hp

/-! ## Update operations under a fresh (or identical) target key -/

theorem inv_updateValue_core {s : TEQ} {ts v oldV : Nat} (hInv : TEQ.Inv s)
    (hl : SMap.lookup ts s.ts2Val = some oldV)
    (hverase : SMap.lookup v (SMap.erase oldV s.val2Ts) = none) :
    TEQ.Inv (TEQ.updateValue ts v s).1 := by
  obtain ⟨⟨hs1, hs2⟩, hm1, hm2⟩ := hInv
  have hnd1 := SMap.keysNodup_of_keysSorted hs1
  have hnd2 := SMap.keysNodup_of_keysSorted hs2
  have hlold : SMap.lookup oldV s.val2Ts = some ts :=
    TEQ.lookup_of_inv_ts ⟨⟨hs1, hs2⟩, hm1, hm2⟩ hl
  have htsold : (ts, oldV) ∈ s.ts2Val := SMap.mem_of_lookup_eq_some hl
  have holdts : (oldV, ts) ∈ s.val2Ts := SMap.mem_of_lookup_eq_some hlold
  rw [TEQ.updateValue_found hl hlold]
  refine ⟨⟨SMap.keysSorted_assign hs1,
           SMap.keysSorted_emplace (SMap.keysSorted_erase hs2)⟩, ?_, ?_⟩
  · intro p hp
    rcases (SMap.mem_assign_iff hnd1).1 hp with ⟨rfl, _⟩ | ⟨hp, hne⟩
    · exact (SMap.mem_emplace_iff hverase).2 (Or.inl rfl)
    · have hp2 : p.2 ≠ oldV := by
        intro h2
        exact hne (SMap.value_eq_of_mem hnd2 (h2 ▸ hm1 p hp) holdts)
      exact SMap.mem_emplace_of_mem ((SMap.mem_erase_iff hnd2).2 ⟨hm1 p hp, hp2⟩)
  · intro q hq
    rcases (SMap.mem_emplace_iff hverase).1 hq with rfl | hq
    · exact (SMap.mem_assign_iff hnd1).2 (Or.inl ⟨rfl, SMap.fst_mem_keys htsold⟩)
    · obtain ⟨hq, hne⟩ := (SMap.mem_erase_iff hnd2).1 hq
      have hq2 : q.2 ≠ ts := by
        intro h2
        exact hne (SMap.value_eq_of_mem hnd1 (h2 ▸ hm2 q hq) htsold)
      exact (SMap.mem_assign_iff hnd1).2 (Or.inr ⟨hm2 q hq, hq2⟩)

theorem inv_updateTimestamp_core {s : TEQ} {ts v oldTs : Nat} (hInv : TEQ.Inv s)
    (hl : SMap.lookup v s.val2Ts = some oldTs)
    (htserase : SMap.lookup ts (SMap.erase oldTs s.ts2Val) = none) :
    TEQ.Inv (TEQ.updateTimestamp ts v s).1 := by
  obtain ⟨⟨hs1, hs2⟩, hm1, hm2⟩ := hInv
  have hnd1 := SMap.keysNodup_of_keysSorted hs1
  have hnd2 := SMap.keysNodup_of_keysSorted hs2
  have hlold : SMap.lookup oldTs s.ts2Val = some v :=
    TEQ.lookup_of_inv_val ⟨⟨hs1, hs2⟩, hm1, hm2⟩ hl
  have hvold : (v, oldTs) ∈ s.val2Ts := SMap.mem_of_lookup_eq_some hl
  have holdv : (oldTs, v) ∈ s.ts2Val := SMap.mem_of_lookup_eq_some hlold
  rw [TEQ.updateTimestamp_found hl hlold]
  refine ⟨⟨SMap.keysSorted_emplace (SMap.keysSorted_erase hs1),
           SMap.keysSorted_assign hs2⟩, ?_, ?_⟩
  · intro p hp
    rcases (SMap.mem_emplace_iff htserase).1 hp with rfl | hp
    · exact (SMap.mem_assign_iff hnd2).2 (Or.inl ⟨rfl, SMap.fst_mem_keys hvold⟩)
    · obtain ⟨hp, hne⟩ := (SMap.mem_erase_iff hnd1).1 hp
      have hp2 : p.2 ≠ v := by
        intro h2
        exact hne (SMap.value_eq_of_mem hnd2 (h2 ▸ hm1 p hp) hvold)
      exact (SMap.mem_assign_iff hnd2).2 (Or.inr ⟨hm1 p hp, hp2⟩)
  · intro q hq
    rcases (SMap.mem_assign_iff hnd2).1 hq with ⟨rfl, _⟩ | ⟨hq, hne⟩
    · exact (SMap.mem_emplace_iff htserase).2 (Or.inl rfl)
    · have hq2 : q.2 ≠ oldTs := by
        intro h2
        exact hne (SMap.value_eq_of_mem hnd1 (h2 ▸ hm2 q hq) holdv)
      exact SMap.mem_emplace_of_mem ((SMap.mem_erase_iff hnd1).2 ⟨hm2 q hq, hq2⟩)

/-! ## Claims -/

/-- C1: for every sequence of addEvent/removeEvent/updateValue/
updateTimestamp calls in which all submitted timestamps are pairwise
distinct and all submitted values are pairwise distinct (`allOK`: each
inserted coordinate is fresh at the point of its call), the two indices
remain in bijective correspondence (`Inv`, whose `mirrored` part says
every (value, timestamp) entry of `_val2Ts` has the matching
(timestamp, value) entry of `_ts2Val` and vice versa) after each call,
starting from the constructed state. -/
theorem C1_bijection_invariant :
    (∀ now0 : Nat, TEQ.Inv (TEQ.initState now0)) ∧
    ∀ (ops : List Op) (s : TEQ), TEQ.Inv s → allOK ops s →
      TEQ.Inv (applyOps ops s) := by
  constructor
  · exact inv_initState
  · intro ops
    induction ops with
    | nil => intro s h _; exact h
    | cons o l ih =>
        intro s h hok
        exact ih _ (inv_applyOp h hok.1) hok.2

/-- C1 witness: a concrete call sequence from the constructed state. -/
theorem C1_witness :
    TEQ.Inv (applyOps [Op.add 5 7, Op.updT 3 7, Op.removeV 7]
      (TEQ.initState 0)) :=
  C1_bijection_invariant.2 [Op.add 5 7, Op.updT 3 7, Op.removeV 7]
    (TEQ.initState 0) (C1_bijection_invariant.1 0) (by decide)

/-- C2: the drain loop fires exactly the due prefix of the (sorted)
timestamp index — the fired and remaining lists partition `_ts2Val`,
every fired timestamp is `<= now`, every remaining timestamp is in the
future (so the loop stops exactly when the earliest remaining timestamp
is in the future), the fired pairs come in strictly ascending timestamp
order with no duplicates (each due event delivered exactly once) — and
the store produced by a batch of addEvent calls does not depend on
insertion order, so already-due events at distinct timestamps
T1 < T2 < T3 are delivered in that order however they were inserted. -/
theorem C2_drain_order :
    (∀ (now : Nat) (t2v v2t : List (Nat × Nat)), SMap.keysSorted t2v →
      (TEQ.drainAux now t2v v2t).1 ++ (TEQ.drainAux now t2v v2t).2.1 = t2v ∧
      (∀ p ∈ (TEQ.drainAux now t2v v2t).1, p.1 ≤ now) ∧
      (∀ p ∈ (TEQ.drainAux now t2v v2t).2.1, now < p.1) ∧
      SMap.keysSorted (TEQ.drainAux now t2v v2t).1 ∧
      (SMap.keys (TEQ.drainAux now t2v v2t).1).Nodup) ∧
    ∀ (evs₁ evs₂ : List (Nat × Nat)) (s : TEQ), List.Perm evs₁ evs₂ →
      TEQ.freshEvents evs₁ s → TEQ.WF s →
      TEQ.addAll evs₁ s = TEQ.addAll evs₂ s := by
  constructor
  · intro now t2v v2t hs
    have happ := TEQ.drain_fired_append now t2v v2t
    have hsub : ((TEQ.drainAux now t2v v2t).1).Sublist t2v := by
      conv_rhs => rw [← happ]
      exact List.sublist_append_left _ _
    have hfired : SMap.keysSorted (TEQ.drainAux now t2v v2t).1 :=
      hs.sublist hsub
    exact ⟨happ, TEQ.drain_fired_le now t2v v2t,
           TEQ.drain_rem_gt now t2v v2t hs, hfired,
           SMap.keysNodup_of_keysSorted hfired⟩
  · intro evs₁ evs₂ s hp hf hwf
    exact addAll_perm_invariant hp hf hwf

/-- C2 witness: a concrete drain plus a concrete insertion-order swap. -/
theorem C2_witness :
    ((TEQ.drainAux 10 [(1, 5), (2, 6), (20, 8)] [(5, 1), (6, 2), (8, 20)]).1 ++
      (TEQ.drainAux 10 [(1, 5), (2, 6), (20, 8)]
        [(5, 1), (6, 2), (8, 20)]).2.1 = [(1, 5), (2, 6), (20, 8)]) ∧
    TEQ.addAll [(1, 5), (2, 6)] (TEQ.initState 0) =
      TEQ.addAll [(2, 6), (1, 5)] (TEQ.initState 0) :=
  ⟨(C2_drain_order.1 10 [(1, 5), (2, 6), (20, 8)] [(5, 1), (6, 2), (8, 20)]
      (by decide)).1,
   C2_drain_order.2 [(1, 5), (2, 6)] [(2, 6), (1, 5)] (TEQ.initState 0)
     (by decide) (by decide) (by decide)⟩

/-- C3 counterexample: `removeEvent(T())` — a public API call with the
default value `T() = 0` — removes the sentinel installed at
construction and leaves both indices empty. -/
theorem C3_counterexample :
    (TEQ.removeEventByValue 0 (TEQ.initState 0)).1.ts2Val = [] ∧
    (TEQ.removeEventByValue 0 (TEQ.initState 0)).1.val2Ts = [] := by
  decide

/-- C3 (amended): the sentinel `(CENTENNIAL, T())` is present after
construction and remains present — so neither index is ever empty —
under any sequence of API calls and drain passes that obeys the
distinctness discipline, never keys a removal or update on the
sentinel's value `T() = 0` or its timestamp, and drains only at times
before the sentinel is due; but a call keyed on the sentinel's
coordinates (see the counterexample) does remove it. -/
theorem C3_sentinel_amended : ∀ (now0 : Nat) (exts : List ExtOp),
    allAvoid (TEQ.centennial now0) exts (TEQ.initState now0) →
    (TEQ.centennial now0, 0) ∈
      (applyExtOps exts (TEQ.initState now0)).ts2Val ∧
    (0, TEQ.centennial now0) ∈
      (applyExtOps exts (TEQ.initState now0)).val2Ts ∧
    (applyExtOps exts (TEQ.initState now0)).ts2Val ≠ [] ∧
    (applyExtOps exts (TEQ.initState now0)).val2Ts ≠ [] := by
  intro now0 exts hok
  obtain ⟨hInv, hmem⟩ :=
    sinv_applyExtOps exts (TEQ.initState now0) (sinv_initState now0) hok
  have hmem2 := hInv.2.1 _ hmem
  exact ⟨hmem, hmem2, List.ne_nil_of_mem hmem, List.ne_nil_of_mem hmem2⟩

/-- C3 witness: an add, a removal of that event, and an early drain
pass, none touching the sentinel. -/
theorem C3_witness :
    (TEQ.centennial 0, 0) ∈
      (applyExtOps [ExtOp.api (Op.add 5 7), ExtOp.drainStep 6,
        ExtOp.api (Op.removeV 7)] (TEQ.initState 0)).ts2Val :=
  (C3_sentinel_amended 0 [ExtOp.api (Op.add 5 7), ExtOp.drainStep 6,
    ExtOp.api (Op.removeV 7)] (by decide)).1

/-- C4: contrary to the spec (and to the overloads' own doc comments,
which say "After removing the event, the function notifies the worker
thread"), neither `removeEvent` overload executes `_cv.notify_one()` —
on every state their notify flag is `false` — while `addEvent`,
`updateValue` and `updateTimestamp` always notify; evaluated here at
the constructed state. -/
theorem C4_removeEvent_does_not_notify :
    (TEQ.removeEventByValue 7 (TEQ.initState 0)).2 = false ∧
    (TEQ.removeEventByTimestamp 5 (TEQ.initState 0)).2 = false ∧
    (TEQ.addEvent 5 7 (TEQ.initState 0)).2 = true ∧
    (TEQ.updateValue 5 7 (TEQ.initState 0)).2 = true ∧
    (TEQ.updateTimestamp 5 7 (TEQ.initState 0)).2 = true ∧
    ∀ (s : TEQ) (v ts : Nat),
      (TEQ.removeEventByValue v s).2 = false ∧
      (TEQ.removeEventByTimestamp ts s).2 = false := by
  refine ⟨by decide, by decide, rfl, by decide, by decide, ?_⟩
  intro s v ts
  constructor
  · cases hl : SMap.lookup v s.val2Ts <;>
      simp [TEQ.removeEventByValue, hl]
  · cases hl : SMap.lookup ts s.ts2Val <;>
      simp [TEQ.removeEventByTimestamp, hl]

/-- C5 counterexample: with a single due event, the drain loop's
callback invocation (as recorded by the instrumented loop
`drainTrace`, which logs both indices at the moment `std::invoke`
runs) happens while the (timestamp, value) pair is still present in
both indices — the source invokes the handler on line 86 and erases on
lines 87–88. -/
theorem C5_counterexample :
    ∃ e ∈ TEQ.drainTrace 5 [(1, 7)] [(7, 1)],
      e.1 ∈ e.2.1 ∧ (e.1.2, e.1.1) ∈ e.2.2 := by
  decide

/-- C5 (amended): firing is remove-and-deliver within one locked drain
iteration, but in invoke-then-erase order: every callback invocation
happens while its pair is still present in both indices (first
conjunct), and by the end of the drain pass every fired timestamp and
fired value is gone from the respective index (second conjunct). -/
theorem C5_fire_remove_amended : ∀ (now : Nat) (t2v v2t : List (Nat × Nat)),
    TEQ.Inv ⟨t2v, v2t⟩ →
    (∀ e ∈ TEQ.drainTrace now t2v v2t,
      e.1 ∈ e.2.1 ∧ (e.1.2, e.1.1) ∈ e.2.2) ∧
    (∀ p ∈ (TEQ.drainAux now t2v v2t).1,
      p.1 ∉ SMap.keys (TEQ.drainAux now t2v v2t).2.1 ∧
      p.2 ∉ SMap.keys (TEQ.drainAux now t2v v2t).2.2) := by
  intro now t2v v2t h
  exact ⟨drainTrace_mem now t2v v2t h, drain_fired_gone now t2v v2t h⟩

/-- C5 witness: one due and one future event. -/
theorem C5_witness :
    ((1, 7), [(1, 7), (9, 8)], [(7, 1), (8, 9)]) ∈
      TEQ.drainTrace 3 [(1, 7), (9, 8)] [(7, 1), (8, 9)] ∧
    1 ∉ SMap.keys (TEQ.drainAux 3 [(1, 7), (9, 8)] [(7, 1), (8, 9)]).2.1 ∧
    7 ∉ SMap.keys (TEQ.drainAux 3 [(1, 7), (9, 8)] [(7, 1), (8, 9)]).2.2 :=
  ⟨by decide,
   (C5_fire_remove_amended 3 [(1, 7), (9, 8)] [(7, 1), (8, 9)]
     (by decide)).2 (1, 7) (by decide)⟩

/-- C6 counterexample: with events (1, 10) and (2, 20) stored,
`updateTimestamp(2, 10)` hits the occupied timestamp slot 2: the
node-handle insert fails and the event of value 10 is dropped from the
timestamp index while `_val2Ts` is still set to 10 -> 2, so the pair
(2, 10) is not in the timestamp index and the bijection is broken. -/
theorem C6_counterexample :
    TEQ.Inv (TEQ.mk [(1, 10), (2, 20)] [(10, 1), (20, 2)]) ∧
    SMap.lookup 10 (TEQ.mk [(1, 10), (2, 20)] [(10, 1), (20, 2)]).val2Ts =
      some 1 ∧
    (2, 10) ∉ (TEQ.updateTimestamp 2 10
      (TEQ.mk [(1, 10), (2, 20)] [(10, 1), (20, 2)])).1.ts2Val ∧
    ¬ TEQ.mirrored (TEQ.updateTimestamp 2 10
      (TEQ.mk [(1, 10), (2, 20)] [(10, 1), (20, 2)])).1 := by
  decide

/-- C6 (amended): `updateTimestamp(newTs, value)` leaves the store
unchanged when no event has that value; otherwise — provided `newTs`
is not the timestamp of another stored event (it is fresh, or is the
event's own current timestamp) — it moves exactly that event: the pair
(newTs, value) is in the timestamp index, the value index maps the
value to newTs, every other event is untouched, and the bijection
still holds. Without that proviso the counterexample applies. -/
theorem C6_updateTimestamp_amended : ∀ (s : TEQ) (ts v : Nat), TEQ.Inv s →
    (SMap.lookup v s.val2Ts = none → TEQ.updateTimestamp ts v s = (s, true)) ∧
    (∀ oldTs, SMap.lookup v s.val2Ts = some oldTs →
      (SMap.lookup ts s.ts2Val = none ∨ ts = oldTs) →
      TEQ.Inv (TEQ.updateTimestamp ts v s).1 ∧
      SMap.lookup v (TEQ.updateTimestamp ts v s).1.val2Ts = some ts ∧
      (ts, v) ∈ (TEQ.updateTimestamp ts v s).1.ts2Val ∧
      (∀ p ∈ s.ts2Val, p.1 ≠ oldTs →
        p ∈ (TEQ.updateTimestamp ts v s).1.ts2Val) ∧
      (∀ p ∈ (TEQ.updateTimestamp ts v s).1.ts2Val, p.1 ≠ ts →
        p ∈ s.ts2Val ∧ p.1 ≠ oldTs)) := by
  intro s ts v hInv
  constructor
  · exact TEQ.updateTimestamp_notfound
  · intro oldTs hl hdisj
    have hnd1 := SMap.keysNodup_of_keysSorted hInv.1.1
    have hnd2 := SMap.keysNodup_of_keysSorted hInv.1.2
    have hlold : SMap.lookup oldTs s.ts2Val = some v :=
      TEQ.lookup_of_inv_val hInv hl
    have hvold : (v, oldTs) ∈ s.val2Ts := SMap.mem_of_lookup_eq_some hl
    have htserase : SMap.lookup ts (SMap.erase oldTs s.ts2Val) = none := by
      rcases hdisj with hfresh | rfl
      · rw [SMap.lookup_eq_none_iff]
        intro hmem
        exact (SMap.lookup_eq_none_iff.1 hfresh)
          (((SMap.erase_sublist oldTs s.ts2Val).map Prod.fst).subset hmem)
      · exact SMap.lookup_erase_self hnd1
    refine ⟨inv_updateTimestamp_core hInv hl htserase, ?_, ?_, ?_, ?_⟩
    · rw [TEQ.updateTimestamp_found hl hlold]
      have hmem : (v, ts) ∈ SMap.assign v ts s.val2Ts :=
        (SMap.mem_assign_iff hnd2).2 (Or.inl ⟨rfl, SMap.fst_mem_keys hvold⟩)
      have hnd' : (SMap.keys (SMap.assign v ts s.val2Ts)).Nodup := by
        rw [SMap.keys_assign]
        exact hnd2
      exact SMap.lookup_eq_some_of_mem hnd' hmem
    · rw [TEQ.updateTimestamp_found hl hlold]
      exact (SMap.mem_emplace_iff htserase).2 (Or.inl rfl)
    · rw [TEQ.updateTimestamp_found hl hlold]
      intro p hp hne
      exact SMap.mem_emplace_of_mem ((SMap.mem_erase_iff hnd1).2 ⟨hp, hne⟩)
    · rw [TEQ.updateTimestamp_found hl hlold]
      intro p hp hne
      rcases (SMap.mem_emplace_iff htserase).1 hp with rfl | hp
      · exact absurd rfl hne
      · exact (SMap.mem_erase_iff hnd1).1 hp

/-- C6 witness: moving the single stored event to a fresh timestamp. -/
theorem C6_witness :
    (2, 10) ∈ (TEQ.updateTimestamp 2 10
      (TEQ.mk [(1, 10)] [(10, 1)])).1.ts2Val ∧
    SMap.lookup 10 (TEQ.updateTimestamp 2 10
      (TEQ.mk [(1, 10)] [(10, 1)])).1.val2Ts = some 2 :=
  have h := (C6_updateTimestamp_amended (TEQ.mk [(1, 10)] [(10, 1)]) 2 10
    (by decide)).2 1 (by decide) (Or.inl (by decide))
  ⟨h.2.2.1, h.2.1⟩

/-- C7 counterexample: with events (1, 10) and (2, 20) stored,
`updateValue(1, 20)` hits the occupied value 20: the node-handle
insert into `_val2Ts` fails and the entry for the old value 10 is
dropped, while `_ts2Val` is still set to 1 -> 20, so the pair (20, 1)
is not in the value index and the bijection is broken. -/
theorem C7_counterexample :
    TEQ.Inv (TEQ.mk [(1, 10), (2, 20)] [(10, 1), (20, 2)]) ∧
    SMap.lookup 1 (TEQ.mk [(1, 10), (2, 20)] [(10, 1), (20, 2)]).ts2Val =
      some 10 ∧
    (20, 1) ∉ (TEQ.updateValue 1 20
      (TEQ.mk [(1, 10), (2, 20)] [(10, 1), (20, 2)])).1.val2Ts ∧
    ¬ TEQ.mirrored (TEQ.updateValue 1 20
      (TEQ.mk [(1, 10), (2, 20)] [(10, 1), (20, 2)])).1 := by
  decide

/-- C7 (amended): `updateValue(timestamp, newValue)` leaves the store
unchanged when no event has that timestamp; otherwise — provided
`newValue` is not the value of another stored event (it is fresh, or
is the event's own current value) — it changes the stored value at
that timestamp: the pair (newValue, timestamp) is in the value index,
the timestamp index maps the timestamp to newValue, every other event
is untouched, and the bijection still holds. Without that proviso the
counterexample applies. -/
theorem C7_updateValue_amended : ∀ (s : TEQ) (ts v : Nat), TEQ.Inv s →
    (SMap.lookup ts s.ts2Val = none → TEQ.updateValue ts v s = (s, true)) ∧
    (∀ oldV, SMap.lookup ts s.ts2Val = some oldV →
      (SMap.lookup v s.val2Ts = none ∨ v = oldV) →
      TEQ.Inv (TEQ.updateValue ts v s).1 ∧
      SMap.lookup ts (TEQ.updateValue ts v s).1.ts2Val = some v ∧
      (v, ts) ∈ (TEQ.updateValue ts v s).1.val2Ts ∧
      (∀ q ∈ s.val2Ts, q.1 ≠ oldV →
        q ∈ (TEQ.updateValue ts v s).1.val2Ts) ∧
      (∀ q ∈ (TEQ.updateValue ts v s).1.val2Ts, q.1 ≠ v →
        q ∈ s.val2Ts ∧ q.1 ≠ oldV)) := by
  intro s ts v hInv
  constructor
  · exact TEQ.updateValue_notfound
  · intro oldV hl hdisj
    have hnd1 := SMap.keysNodup_of_keysSorted hInv.1.1
    have hnd2 := SMap.keysNodup_of_keysSorted hInv.1.2
    have hlold : SMap.lookup oldV s.val2Ts = some ts :=
      TEQ.lookup_of_inv_ts hInv hl
    have htsold : (ts, oldV) ∈ s.ts2Val := SMap.mem_of_lookup_eq_some hl
    have hverase : SMap.lookup v (SMap.erase oldV s.val2Ts) = none := by
      rcases hdisj with hfresh | rfl
      · rw [SMap.lookup_eq_none_iff]
        intro hmem
        exact (SMap.lookup_eq_none_iff.1 hfresh)
          (((SMap.erase_sublist oldV s.val2Ts).map Prod.fst).subset hmem)
      · exact SMap.lookup_erase_self hnd2
    refine ⟨inv_updateValue_core hInv hl hverase, ?_, ?_, ?_, ?_⟩
    · rw [TEQ.updateValue_found hl hlold]
      have hmem : (ts, v) ∈ SMap.assign ts v s.ts2Val :=
        (SMap.mem_assign_iff hnd1).2 (Or.inl ⟨rfl, SMap.fst_mem_keys htsold⟩)
      have hnd' : (SMap.keys (SMap.assign ts v s.ts2Val)).Nodup := by
        rw [SMap.keys_assign]
        exact hnd1
      exact SMap.lookup_eq_some_of_mem hnd' hmem
    · rw [TEQ.updateValue_found hl hlold]
      exact (SMap.mem_emplace_iff hverase).2 (Or.inl rfl)
    · rw [TEQ.updateValue_found hl hlold]
      intro q hq hne
      exact SMap.mem_emplace_of_mem ((SMap.mem_erase_iff hnd2).2 ⟨hq, hne⟩)
    · rw [TEQ.updateValue_found hl hlold]
      intro q hq hne
      rcases (SMap.mem_emplace_iff hverase).1 hq with rfl | hq
      · exact absurd rfl hne
      · exact (SMap.mem_erase_iff hnd2).1 hq

/-- C7 witness: changing the single stored event's value to a fresh
value. -/
theorem C7_witness :
    SMap.lookup 1 (TEQ.updateValue 1 20
      (TEQ.mk [(1, 10)] [(10, 1)])).1.ts2Val = some 20 ∧
    (20, 1) ∈ (TEQ.updateValue 1 20
      (TEQ.mk [(1, 10)] [(10, 1)])).1.val2Ts :=
  have h := (C7_updateValue_amended (TEQ.mk [(1, 10)] [(10, 1)]) 1 20
    (by decide)).2 10 (by decide) (Or.inl (by decide))
  ⟨h.2.1, h.2.2.1⟩

/-- C8: removeEvent is total and idempotent: on any well-formed store
(`WF`, the std::map representation invariant), removing an absent
value or timestamp returns the state unchanged (and, being a total
Lean function translated from code with no throw path, raises no
error), and removing the same key twice equals removing it once. -/
theorem C8_removeEvent_idempotent : ∀ (s : TEQ) (v ts : Nat), TEQ.WF s →
    (SMap.lookup v s.val2Ts = none →
      TEQ.removeEventByValue v s = (s, false)) ∧
    (SMap.lookup ts s.ts2Val = none →
      TEQ.removeEventByTimestamp ts s = (s, false)) ∧
    (TEQ.removeEventByValue v (TEQ.removeEventByValue v s).1).1 =
      (TEQ.removeEventByValue v s).1 ∧
    (TEQ.removeEventByTimestamp ts (TEQ.removeEventByTimestamp ts s).1).1 =
      (TEQ.removeEventByTimestamp ts s).1 := by
  intro s v ts hwf
  have hnd1 := SMap.keysNodup_of_keysSorted hwf.1
  have hnd2 := SMap.keysNodup_of_keysSorted hwf.2
  refine ⟨TEQ.removeEventByValue_notfound, TEQ.removeEventByTimestamp_notfound,
    ?_, ?_⟩
  · cases hl : SMap.lookup v s.val2Ts with
    | none =>
        rw [TEQ.removeEventByValue_notfound hl,
            TEQ.removeEventByValue_notfound hl]
    | some ts0 =>
        rw [TEQ.removeEventByValue_found hl]
        have hl2 : SMap.lookup v (SMap.erase v s.val2Ts) = none :=
          SMap.lookup_erase_self hnd2
        rw [(TEQ.removeEventByValue_notfound hl2 :
          TEQ.removeEventByValue v
            (TEQ.mk (SMap.erase ts0 s.ts2Val) (SMap.erase v s.val2Ts)) = _)]
  · cases hl : SMap.lookup ts s.ts2Val with
    | none =>
        rw [TEQ.removeEventByTimestamp_notfound hl,
            TEQ.removeEventByTimestamp_notfound hl]
    | some v0 =>
        rw [TEQ.removeEventByTimestamp_found hl]
        have hl2 : SMap.lookup ts (SMap.erase ts s.ts2Val) = none :=
          SMap.lookup_erase_self hnd1
        rw [(TEQ.removeEventByTimestamp_notfound hl2 :
          TEQ.removeEventByTimestamp ts
            (TEQ.mk (SMap.erase ts s.ts2Val) (SMap.erase v0 s.val2Ts)) = _)]

/-- C8 witness: absent key and double removal on the constructed
state. -/
theorem C8_witness :
    TEQ.removeEventByValue 3 (TEQ.initState 0) = (TEQ.initState 0, false) ∧
    (TEQ.removeEventByValue 0
      (TEQ.removeEventByValue 0 (TEQ.initState 0)).1).1 =
      (TEQ.removeEventByValue 0 (TEQ.initState 0)).1 :=
  ⟨(C8_removeEvent_idempotent (TEQ.initState 0) 3 5 (by decide)).1 (by decide),
   (C8_removeEvent_idempotent (TEQ.initState 0) 0 5 (by decide)).2.2.1⟩

/-- C9: stop() is idempotent: when the worker thread is no longer
joinable (already stopped), `stop` leaves the whole state — exit flag,
thread handle, and the store with both indices — unchanged (and, being
a total function, raises no error), and a second stop() after a first
is a no-op. -/
theorem C9_stop_idempotent : ∀ s : SysState,
    (s.joinable = false → s.stop = s) ∧ s.stop.stop = s.stop := by
  intro s
  constructor
  · intro h
    simp [SysState.stop, h]
  · by_cases h : s.joinable
    · simp [SysState.stop, h]
    · simp [SysState.stop, h]

/-- C9 witness: a stopped scheduler and a running one. -/
theorem C9_witness :
    (SysState.mk (TEQ.initState 0) true false).stop =
      SysState.mk (TEQ.initState 0) true false ∧
    ((SysState.mk (TEQ.initState 0) false true).stop).stop =
      (SysState.mk (TEQ.initState 0) false true).stop :=
  ⟨(C9_stop_idempotent (SysState.mk (TEQ.initState 0) true false)).1 rfl,
   (C9_stop_idempotent (SysState.mk (TEQ.initState 0) false true)).2⟩

/-- C10: addEvent never overwrites an existing binding: `emplace` on a
`std::map` inserts only when the key is absent, so if the timestamp is
already a key of `_ts2Val` that index is unchanged, and if the value is
already a key of `_val2Ts` that index is unchanged — the colliding half
of the insertion is silently dropped. -/
theorem C10_addEvent_no_overwrite : ∀ (s : TEQ) (ts v w ts' : Nat),
    (SMap.lookup ts s.ts2Val = some w →
      (TEQ.addEvent ts v s).1.ts2Val = s.ts2Val) ∧
    (SMap.lookup v s.val2Ts = some ts' →
      (TEQ.addEvent ts v s).1.val2Ts = s.val2Ts) := by
  intro s ts v w ts'
  constructor
  · intro hl
    rw [TEQ.addEvent_fst]
    exact SMap.emplace_eq_of_lookup_some hl
  · intro hl
    rw [TEQ.addEvent_fst]
    exact SMap.emplace_eq_of_lookup_some hl

/-- C10 witness: colliding with the sentinel's timestamp and value on
the constructed state. -/
theorem C10_witness :
    (TEQ.addEvent (TEQ.centennial 0) 7 (TEQ.initState 0)).1.ts2Val =
      (TEQ.initState 0).ts2Val ∧
    (TEQ.addEvent 5 0 (TEQ.initState 0)).1.val2Ts =
      (TEQ.initState 0).val2Ts :=
  ⟨(C10_addEvent_no_overwrite (TEQ.initState 0) (TEQ.centennial 0) 7 0 0).1
      (by decide),
   (C10_addEvent_no_overwrite (TEQ.initState 0) 5 0 0 (TEQ.centennial 0)).2
      (by decide)⟩
